import Mathlib

/-!
Verification of the scrolling-capture core of the clipshot repository
(src/stitch.rs and src/scroll_capture.rs), shallowly embedded in Lean.

Byte buffers are lists of natural numbers (each intended below 256);
machine-integer arithmetic of the source is Nat arithmetic (all the
quantities involved are nonnegative and far below word size), and usize
saturating_sub is Nat subtraction. CGFloat quantities are rationals.
-/

set_option maxHeartbeats 1000000

/-- Model of a CGImage as the scrolling-capture core observes it: pixel
width and height plus the RGBA byte content (row-major, top-down, four
bytes per pixel). -/
structure CGImage where
  width : Nat
  height : Nat
  data : List Nat
deriving Repr, DecidableEq

/-- Model of std DefaultHasher as used by hash_row: an FNV-style fold
yielding a fixed 64-bit fingerprint of a byte list. No theorem below
depends on the concrete fingerprint values, only on the hash being a pure
function of the hashed slice, so the exact SipHash-1-3 stream format of
the standard library hasher is not reproduced. -/
def hashBytes (l : List Nat) : Nat :=
  l.foldl (fun acc b => (acc * 1099511628211 + b) % 2 ^ 64) 14695981039346656037

/-- Embedding of hash_row (src/stitch.rs): hash one pixel row of the
buffer over the byte column range from byteStart to byteEnd; a row whose
slice reaches past the buffer hashes nothing, as in the source. -/
def hash_row (data : List Nat) (row bpr byteStart byteEnd : Nat) : Nat :=
  let base := row * bpr
  let b0 := base + byteStart
  let b1 := base + byteEnd
  if b1 ≤ data.length then hashBytes ((data.drop b0).take (b1 - b0)) else hashBytes []

/-- Absolute difference of two byte values, modelling the i32 subtraction
followed by unsigned_abs in the source. -/
def byteDiff (x y : Nat) : Nat := Int.natAbs ((x : Int) - (y : Int))

/-- Column byte offsets visited by the sampling loop of find_overlap_sad:
offsets byteStart, byteStart + 16, ... as long as offset + 3 < byteEnd
(every fourth pixel). -/
def sadOffsets (byteStart byteEnd : Nat) : List Nat :=
  (((List.range ((byteEnd - byteStart) / 16 + 1)).map (fun t => byteStart + 16 * t))).filter
    (fun o => decide (o + 3 < byteEnd))

/-- One candidate position of the sliding-strip scan in find_overlap_sad:
the summed per-channel absolute differences and the number of sampled
pixels. The per-channel loop for c in 0..3 of the source is unrolled. -/
def sadAt (data_a data_b : List Nat) (bpr byteStart byteEnd stripRows refStart candidate : Nat) :
    Nat × Nat :=
  (List.range stripRows).foldl
    (fun acc r =>
      let aBase := (refStart + r) * bpr
      let bBase := (candidate + r) * bpr
      (sadOffsets byteStart byteEnd).foldl
        (fun acc2 offset =>
          let ai := aBase + offset
          let bi := bBase + offset
          if ai + 2 < data_a.length ∧ bi + 2 < data_b.length then
            (acc2.1 + byteDiff (data_a.getD ai 0) (data_b.getD bi 0)
                    + byteDiff (data_a.getD (ai + 1) 0) (data_b.getD (bi + 1) 0)
                    + byteDiff (data_a.getD (ai + 2) 0) (data_b.getD (bi + 2) 0),
             acc2.2 + 1)
          else acc2) acc) (0, 0)

/-- Embedding of find_overlap_sad (src/stitch.rs). The f64 running minimum
and the acceptance test are modelled by exact rational comparison via
cross-multiplication: with avg = sad / (3 * count), avg1 < avg2 becomes
sad1 * count2 < sad2 * count1 and avg > 15.0 becomes 45 * count < sad.
The running best is (sad_sum, pixel_count, position), none standing for
the initial f64 MAX sentinel. -/
def find_overlap_sad (data_a data_b : List Nat) (width height : Nat) : Nat :=
  let bpr := width * 4
  let byteStart := 0
  let right_margin := width / 20
  let byteEnd := (width - right_margin) * 4
  if byteEnd ≤ byteStart then 0
  else
    let strip_rows := min 10 (height / 4)
    if strip_rows = 0 then 0
    else
      let ref_center := height - height / 6
      let ref_start := min (ref_center - strip_rows / 2) (height - strip_rows)
      let search_range := height * 19 / 20
      let search_limit := search_range - strip_rows
      let best :=
        (List.range (search_limit + 1)).foldl
          (fun best candidate =>
            let sc := sadAt data_a data_b bpr byteStart byteEnd strip_rows ref_start candidate
            if 0 < sc.2 then
              match best with
              | none => some (sc.1, sc.2, candidate)
              | some b => if sc.1 * b.2.1 < b.1 * sc.2 then some (sc.1, sc.2, candidate) else best
            else best)
          (none : Option (Nat × Nat × Nat))
      match best with
      | none => 0
      | some b =>
        if 45 * b.2.1 < b.1 then 0
        else
          let overlap := height - ref_start + b.2.2
          if overlap ≥ height then height else overlap

/-- Running best candidate of tier 1 of find_overlap, mirroring the four
mutable locals best_overlap, best_run, best_matches, best_rate. -/
structure BestCand where
  overlap : Nat
  run : Nat
  matched : Nat
  rate : Nat
deriving Repr, DecidableEq

/-- Row-hash cache hashes_a of find_overlap: entry i holds the hash of
absolute row a_start_row + i of the earlier frame, where
a_start_row = height - search_range, search_range = height * 19 / 20,
bpr = width * 4, byte_start = 0 and byte_end = (width - width / 20) * 4
as computed at the top of find_overlap. -/
def hashesA (data_a : List Nat) (width height : Nat) : List Nat :=
  (List.range (height * 19 / 20)).map
    (fun i => hash_row data_a (height - height * 19 / 20 + i) (width * 4) 0
      ((width - width / 20) * 4))

/-- Row-hash cache hashes_b of find_overlap: entry i holds the hash of
row i of the later frame, over the same column window as hashesA. -/
def hashesB (data_b : List Nat) (width height : Nat) : List Nat :=
  (List.range (height * 19 / 20)).map
    (fun i => hash_row data_b i (width * 4) 0 ((width - width / 20) * 4))

/-- Band-verification loop of find_overlap for one candidate overlap
candidate_k: scans all candidate_k rows of the band, returning the triple
(longest_run, current_run, total_matches) of the three mutable counters.
Rows inside the cached windows read the caches (getD; every index the
source uses is in range under the entry guards of find_overlap, matching
the panic-free source), rows outside are hashed directly, exactly as the
source branches do; a_overlap_start = height - candidate_k. -/
def verifyBand (data_a data_b : List Nat) (width height candidate_k : Nat) : Nat × Nat × Nat :=
  (List.range candidate_k).foldl
    (fun st r =>
      let a_abs_row := height - candidate_k + r
      let ha :=
        if height - height * 19 / 20 ≤ a_abs_row then
          (hashesA data_a width height).getD (a_abs_row - (height - height * 19 / 20)) 0
        else hash_row data_a a_abs_row (width * 4) 0 ((width - width / 20) * 4)
      let hb :=
        if r < height * 19 / 20 then (hashesB data_b width height).getD r 0
        else hash_row data_b r (width * 4) 0 ((width - width / 20) * 4)
      if ha = hb then
        (max st.1 (st.2.1 + 1), st.2.1 + 1, st.2.2 + 1)
      else (st.1, 0, st.2.2))
    ((0, 0, 0) : Nat × Nat × Nat)

/-- One iteration of the candidate loop of find_overlap: j is the row of
the later frame being tested; the reference hash is cache entry
ref_row_in_a - a_start_row of hashesA with ref_row_in_a =
height - height / 6 (the row height / 6 above the bottom of the earlier
frame); the candidate overlap is candidate_k = j + height / 6; the best
record is replaced when the candidate scores strictly higher in rate or
ties in rate with a strictly longer run. -/
def bestStep (data_a data_b : List Nat) (width height : Nat) (best : BestCand) (j : Nat) :
    BestCand :=
  if (hashesB data_b width height).getD j 0 ≠
      (hashesA data_a width height).getD
        (height - height / 6 - (height - height * 19 / 20)) 0 then best
  else
    let candidate_k := j + height / 6
    if candidate_k = 0 ∨ candidate_k > height then best
    else
      let scan := verifyBand data_a data_b width height candidate_k
      let longest_run := scan.1
      let total_matches := scan.2.2
      let rate := if 0 < candidate_k then total_matches * 1000 / candidate_k else 0
      if rate > best.rate ∨ (rate = best.rate ∧ longest_run > best.run) then
        BestCand.mk candidate_k longest_run total_matches rate
      else best

/-- Embedding of find_overlap (src/stitch.rs), the two-tier overlap
detector. The locals bpr = width * 4, byte_start = 0 and
byte_end = (width - width / 20) * 4 of the source are inlined into the
guard and the helper definitions above; the candidate loop over rows of
the later frame is the fold of bestStep over the search range. -/
def find_overlap (data_a data_b : List Nat) (width height : Nat) : Nat :=
  if data_a.isEmpty ∨ data_b.isEmpty ∨ width = 0 ∨ height < 32 then 0
  else if (width - width / 20) * 4 ≤ 0 then 0
  else
    let best :=
      (List.range (height * 19 / 20)).foldl (bestStep data_a data_b width height)
        (BestCand.mk 0 0 0 0)
    let min_run := 8
    let min_matches := max min_run (best.overlap / 4)
    if best.matched < min_matches ∧ best.run < min_run then
      find_overlap_sad data_a data_b width height
    else if best.overlap ≥ height then height
    else best.overlap

/-- Embedding of copy_cgimage (src/stitch.rs). The source draws the image
1:1 into a fresh RGBA bitmap context of the same dimensions and wraps the
context as a new image; per the pixel-exactness contract of the platform
draw (spec sections 4.1 and 4.3) the copy is pixel-identical. -/
def copy_cgimage (image : CGImage) : Option CGImage :=
  some (CGImage.mk image.width image.height image.data)

/-- Embedding of cgimage_to_rgba (src/actions.rs): the bitmap-context
render reproduces the RGBA bytes of the image unchanged (the Pixelizer
contract, spec section 4.1). The platform failure paths of the source
(color space or context creation) are modelled as oracle inputs at the
call sites that handle them. -/
def cgimage_to_rgba (img : CGImage) : List Nat := img.data

/-- Pairwise overlap list computed by stitch_frames: one find_overlap value
for each pair of consecutive RGBA buffers, in order. -/
def stitch_overlaps (rgba : List (List Nat)) (w h : Nat) : List Nat :=
  match rgba with
  | a :: b :: rest => find_overlap a b w h :: stitch_overlaps (b :: rest) w h
  | _ => []

/-- Canvas height computed by stitch_frames: starts at the frame height and
adds the nonzero parts height - overlap (usize saturating_sub), skipping
zero additions as the source loop does. -/
def total_height_of (h : Nat) (overlaps : List Nat) : Nat :=
  overlaps.foldl (fun acc ov => let addition := h - ov; if addition = 0 then acc else acc + addition) h

/-- Model of copy_from_slice into output[start .. start + src.length):
the written buffer keeps its prefix, receives src, and keeps its tail. -/
def writeSlice (dst : List Nat) (start : Nat) (src : List Nat) : List Nat :=
  dst.take start ++ src ++ dst.drop (start + src.length)

/-- Embedding of stitch_frames (src/stitch.rs). The output canvas is the
zero-filled byte buffer the source allocates, written by the same
sequential copies; the final CGBitmapContextCreateImage wrap is modelled
as producing an image with the composited buffer and the computed
dimensions (pixel-exact platform wrap, spec section 4.3). The loop over
overlaps with rgba_data[i + 1] is written as a fold over the zip of the
overlap list with the tail of the buffer list, which pairs the same
elements. -/
def stitch_frames (frames : List CGImage) (rgba_data : List (List Nat)) : Option CGImage :=
  if frames.isEmpty ∨ rgba_data.length ≠ frames.length then none
  else
    match frames with
    | [] => none
    | [f0] => copy_cgimage f0
    | f0 :: _ :: _ =>
      let frame_width := f0.width
      let frame_height := f0.height
      let overlaps := stitch_overlaps rgba_data frame_width frame_height
      let total_height := total_height_of frame_height overlaps
      if total_height = 0 ∨ frame_width = 0 then none
      else
        let bpr := frame_width * 4
        let output0 := List.replicate (bpr * total_height) 0
        let copy_bytes := bpr * frame_height
        let output1 := writeSlice output0 0 ((rgba_data.headD []).take copy_bytes)
        let final :=
          (overlaps.zip rgba_data.tail).foldl
            (fun st p =>
              let addition := frame_height - p.1
              if addition = 0 then st
              else
                let src_start := p.1 * bpr
                let seg := (p.2.drop src_start).take (addition * bpr)
                (writeSlice st.1 (st.2 * bpr) seg, st.2 + addition))
            (output1, frame_height)
        some (CGImage.mk frame_width total_height final.1)

/-- Embedding of CGImage.with_image_in_rect for the full-width row-band
crops performed by estimate_overlap: keeps rows [y, y + h). The crop
rectangles of the source span the full width of the previous frame, which
equals the width of the image being cropped under the session invariant
that all frames share one pixel size. -/
def cropRows (img : CGImage) (y h : Nat) : CGImage :=
  CGImage.mk img.width h ((img.data.drop (y * (img.width * 4))).take (h * (img.width * 4)))

/-- One candidate position of the strip scan in estimate_overlap
(src/scroll_capture.rs): summed per-channel absolute differences and the
sample count, sampling every eighth column. The per-channel loop for c in
0..3 of the source is unrolled. -/
def estSadAt (data_prev data_curr : List Nat) (width bpr refLocalStart refCount candidate : Nat) :
    Nat × Nat :=
  (List.range refCount).foldl
    (fun acc r =>
      let prevOff := (refLocalStart + r) * bpr
      let currOff := (candidate + r) * bpr
      ((List.range ((width + 7) / 8)).map (fun t => 8 * t)).foldl
        (fun acc2 col =>
          let pp := prevOff + col * 4
          let cp := currOff + col * 4
          if pp + 2 < data_prev.length ∧ cp + 2 < data_curr.length then
            (acc2.1 + byteDiff (data_prev.getD pp 0) (data_curr.getD cp 0)
                    + byteDiff (data_prev.getD (pp + 1) 0) (data_curr.getD (cp + 1) 0)
                    + byteDiff (data_prev.getD (pp + 2) 0) (data_curr.getD (cp + 2) 0),
             acc2.2 + 1)
          else acc2) acc) (0, 0)

/-- Embedding of estimate_overlap (src/scroll_capture.rs): crops the bottom
strip of the previous image and the full current image, then scans the
current image top-down for the first position whose five-row reference
strip matches with average difference below 5.0. With avg =
sad / (3 * count), avg < 5.0 is the exact comparison sad < 15 * count.
The crop or conversion failure paths of the platform calls (each answered
by returning 0 in the source) are modelled as always succeeding, which is
what the pure crop on the modelled image does. -/
def estimate_overlap (prev curr : CGImage) (frame_height : Nat) : Nat :=
  let width := prev.width
  if width = 0 ∨ frame_height < 15 then 0
  else
    let strip_height := min 15 frame_height
    let strip_start := frame_height - strip_height
    let data_prev := cgimage_to_rgba (cropRows prev strip_start strip_height)
    let search_height := frame_height
    let data_curr := cgimage_to_rgba (cropRows curr 0 search_height)
    let bpr := width * 4
    let ref_local_start := strip_height - 10
    let ref_count := min 5 (strip_height - ref_local_start)
    let dist_from_bottom := strip_height - ref_local_start
    let search_limit := search_height - ref_count
    match (List.range (search_limit + 1)).find? (fun candidate =>
        let sc := estSadAt data_prev data_curr width bpr ref_local_start ref_count candidate
        decide (0 < sc.2 ∧ sc.1 < 15 * sc.2)) with
    | some candidate => dist_from_bottom + candidate
    | none => 0

/-- CGFloat point, coordinates modelled as rationals. -/
structure CGPoint where
  x : Rat
  y : Rat
deriving Repr, DecidableEq

/-- CGFloat size, dimensions modelled as rationals. -/
structure CGSize where
  width : Rat
  height : Rat
deriving Repr, DecidableEq

/-- CGFloat rectangle: origin and size. -/
structure CGRect where
  origin : CGPoint
  size : CGSize
deriving Repr, DecidableEq

/-- Embedding of overlay_to_cg_global (src/scroll.rs): offset an overlay
point by the CG global origin of the display. -/
def overlay_to_cg_global (x y : Rat) (screen_origin : CGPoint) : CGPoint :=
  CGPoint.mk (screen_origin.x + x) (screen_origin.y + y)

/-- Model of the Rust as-i32 cast applied to an f64: truncation toward
zero. Saturation at the i32 bounds is not modelled; every quantity cast
in this code is a small screen dimension. -/
def f64_trunc_to_int (q : Rat) : Int :=
  if 0 ≤ q then q.floor else -((-q).floor)

/-- Phase within each timer tick of the scrolling-capture state machine:
scroll first, capture on the next tick. -/
inductive Phase where
  | Scroll
  | Capture
deriving Repr, DecidableEq

/-- One synthetic scroll posted to the external scroll-injection service:
the screen point and the pixel delta handed to simulate_scroll. -/
structure ScrollCmd where
  point : CGPoint
  delta : Int
deriving Repr, DecidableEq

/-- Embedding of ScrollCaptureState (src/scroll_capture.rs). The NSTimer
handle is platform plumbing and is not part of the model. -/
structure ScrollCaptureState where
  selection : CGRect
  scale_factor : Rat
  screen_origin : CGPoint
  max_steps : Nat
  settle_delay : Rat
  frames : List CGImage
  frame_rgba : List (List Nat)
  step_count : Nat
  phase : Phase
  border_window_id : Option Nat
  display_id : Nat
deriving Repr, DecidableEq

/-- Embedding of ScrollCaptureState.new. -/
def ScrollCaptureState.new (selection : CGRect) (scale_factor : Rat) (screen_origin : CGPoint)
    (display_id : Nat) : ScrollCaptureState :=
  { selection := selection
    scale_factor := scale_factor
    screen_origin := screen_origin
    max_steps := 50
    settle_delay := 1 / 2
    frames := []
    frame_rgba := []
    step_count := 0
    phase := Phase.Capture
    border_window_id := none
    display_id := display_id }

/-- Outcome of the external capture-and-crop call plus the RGBA conversion
on one Capture-phase tick, supplied to tick as an oracle input:
capture_and_crop consults the external screen-capture service (it may
return nothing), and cgimage_to_rgba may fail in the platform bitmap
context; on success the captured image is available. The oracle is ignored
on Scroll-phase ticks. -/
inductive CaptureOutcome where
  | captureFailed
  | convertFailed (frame : CGImage)
  | captured (frame : CGImage)
deriving Repr, DecidableEq

/-- Embedding of ScrollCaptureState.tick (src/scroll_capture.rs). Returns
the updated state, the keep-running flag handed back to the timer, and the
scroll command posted to the scroll-injection service on this tick, if
any. The state is threaded explicitly in place of &mut self. -/
def ScrollCaptureState.tick (s : ScrollCaptureState) (outcome : CaptureOutcome) :
    ScrollCaptureState × Bool × Option ScrollCmd :=
  match s.phase with
  | Phase.Scroll =>
    let step_count := s.step_count + 1
    if step_count > s.max_steps then
      ({ s with step_count := step_count }, false, none)
    else
      let center_x := s.selection.origin.x + s.selection.size.width / 2
      let center_y := s.selection.origin.y + s.selection.size.height / 2
      let screen_point := overlay_to_cg_global center_x center_y s.screen_origin
      let scroll_amount := -(f64_trunc_to_int (s.selection.size.height * 2 / 3))
      ({ s with step_count := step_count, phase := Phase.Capture }, true,
        some (ScrollCmd.mk screen_point scroll_amount))
  | Phase.Capture =>
    match outcome with
    | CaptureOutcome.captureFailed => ({ s with phase := Phase.Scroll }, true, none)
    | CaptureOutcome.convertFailed _ => ({ s with phase := Phase.Scroll }, true, none)
    | CaptureOutcome.captured frame =>
      let rgba := cgimage_to_rgba frame
      match s.frames.getLast? with
      | some prev =>
        let frame_height := prev.height
        let overlap := estimate_overlap prev frame frame_height
        if overlap ≥ frame_height * 19 / 20 then
          (s, false, none)
        else if overlap > frame_height * 4 / 5 then
          ({ s with frames := s.frames ++ [frame], frame_rgba := s.frame_rgba ++ [rgba] },
            false, none)
        else
          ({ s with frames := s.frames ++ [frame], frame_rgba := s.frame_rgba ++ [rgba],
                    phase := Phase.Scroll }, true, none)
      | none =>
        ({ s with frames := s.frames ++ [frame], frame_rgba := s.frame_rgba ++ [rgba],
                  phase := Phase.Scroll }, true, none)

/-- Row hash used by tier 1 of the detector, with the column window the
source derives from the width: full left edge, rightmost five percent of
columns excluded. -/
def rowHash (dat : List Nat) (w row : Nat) : Nat :=
  hash_row dat row (w * 4) 0 ((w - w / 20) * 4)

/-- Hash of the tier-1 reference row of the earlier frame: the row
height / 6 above its bottom edge. -/
def refRowHash (a : List Nat) (w h : Nat) : Nat := rowHash a w (h - h / 6)

/-- Row r of the candidate band matches when row height - k + r of the
earlier frame and row r of the later frame have equal row hashes. -/
def t1MatchRow (a b : List Nat) (w h k r : Nat) : Bool :=
  rowHash a w (h - k + r) == rowHash b w r

/-- Total matching row hashes over the whole k-row candidate band. -/
def t1Matches (a b : List Nat) (w h k : Nat) : Nat :=
  ((List.range k).filter (t1MatchRow a b w h k)).length

/-- Scan of a band keeping (longest run, current run, total matches). -/
def runScan3 (p : Nat → Bool) (k : Nat) : Nat × Nat × Nat :=
  (List.range k).foldl
    (fun st r => if p r then (max st.1 (st.2.1 + 1), st.2.1 + 1, st.2.2 + 1) else (st.1, 0, st.2.2))
    (0, 0, 0)

/-- Longest contiguous run of matching row hashes over the k-row band. -/
def t1Run (a b : List Nat) (w h k : Nat) : Nat :=
  (runScan3 (t1MatchRow a b w h k) k).1

/-- Match rate of a candidate band in permille. -/
def t1Rate (a b : List Nat) (w h k : Nat) : Nat := t1Matches a b w h k * 1000 / k

/-- Tier-1 candidate overlaps: k = j + height / 6 for every row j of the
later frame whose row hash equals the reference row hash, restricted to
the valid overlap range 0 < k ≤ height. -/
def t1Candidates (a b : List Nat) (w h : Nat) : List Nat :=
  ((List.range (h * 19 / 20)).filter (fun j =>
      rowHash b w j == refRowHash a w h && decide (0 < j + h / 6) && decide (j + h / 6 ≤ h))).map
    (fun j => j + h / 6)

/-- The running-best record a candidate k contributes in tier 1. -/
def t1Best (a b : List Nat) (w h k : Nat) : BestCand :=
  BestCand.mk k (t1Run a b w h k) (t1Matches a b w h k)
    (if 0 < k then t1Matches a b w h k * 1000 / k else 0)

/-- One step of the running-best selection of tier 1, expressed through the
band statistics of the candidate. -/
def updBest (a b : List Nat) (w h : Nat) (best : BestCand) (k : Nat) : BestCand :=
  if (if 0 < k then t1Matches a b w h k * 1000 / k else 0) > best.rate ∨
      ((if 0 < k then t1Matches a b w h k * 1000 / k else 0) = best.rate ∧
        t1Run a b w h k > best.run) then
    t1Best a b w h k
  else best

/-- Lexicographic comparison of (rate, run) scores used by tier 1: higher
rate wins, ties are broken by the longer run. -/
def scoreLe (x y : Nat × Nat) : Prop := x.1 < y.1 ∨ (x.1 = y.1 ∧ x.2 ≤ y.2)

/-- Score of a candidate k: its match rate and its longest run. -/
def t1Score (a b : List Nat) (w h k : Nat) : Nat × Nat :=
  (t1Rate a b w h k, t1Run a b w h k)

/-- Helper building one-pixel-wide gray test images: each value v becomes
one RGBA row v v v 255. -/
def grayRows (vals : List Nat) : List Nat := (vals.map (fun v => [v, v, v, 255])).flatten

/-- Concrete earlier frame, 1 x 15: five dark rows, five bright rows, five
dark rows. -/
def prevCex : CGImage := CGImage.mk 1 15 (grayRows [0, 0, 0, 0, 0, 100, 100, 100, 100, 100, 0, 0, 0, 0, 0])

/-- Concrete later frame, 1 x 15: ten dark rows then five bright rows, so
the reference strip of prevCex first matches at the last scan position. -/
def currCex : CGImage := CGImage.mk 1 15 (grayRows [0, 0, 0, 0, 0, 0, 0, 0, 0, 0, 100, 100, 100, 100, 100])

/-- Concrete unit selection rectangle for test sessions. -/
def rectCex : CGRect := CGRect.mk (CGPoint.mk 0 0) (CGSize.mk 1 15)

/-- Concrete Capture-phase session holding prevCex as its only frame. -/
def sCex : ScrollCaptureState :=
  { ScrollCaptureState.new rectCex 1 (CGPoint.mk 0 0) 1 with
      frames := [prevCex], frame_rgba := [cgimage_to_rgba prevCex] }

/-- Concrete Scroll-phase session with no steps taken yet. -/
def sScrollCex : ScrollCaptureState :=
  { ScrollCaptureState.new rectCex 1 (CGPoint.mk 0 0) 1 with phase := Phase.Scroll }

/-- Concrete Scroll-phase session that has exhausted its step budget. -/
def sMaxCex : ScrollCaptureState :=
  { sScrollCex with step_count := 50 }

/-- Concrete 1 x 1 frame used by the stitching witnesses. -/
def f1Cex : CGImage := CGImage.mk 1 1 [9, 9, 9, 255]

/-- Second concrete 1 x 1 frame used by the stitching witnesses. -/
def f2Cex : CGImage := CGImage.mk 1 1 [7, 7, 7, 255]

/-- Concrete 1 x 32 uniform buffer for detector witnesses. -/
def aW : List Nat := List.replicate 128 5

/-- Concrete second 1 x 32 uniform buffer for detector witnesses. -/
def bW : List Nat := List.replicate 128 7

theorem append_singleton_ne (l : List CGImage) (x : CGImage) : l ++ [x] ≠ l := by
  intro hEq
  have := congrArg List.length hEq
  simp at this

/-- C9: stitching an empty frame list yields none, and stitching a single
frame wrapped around a buffer B yields a pixel-identical image. -/
theorem stitch_empty_none_single_identity (rgba : List (List Nat)) (w h : Nat) (B : List Nat) :
    stitch_frames [] rgba = none ∧
    stitch_frames [CGImage.mk w h B] [B] = some (CGImage.mk w h B) := by
  constructor
  · simp [stitch_frames]
  · simp [stitch_frames, copy_cgimage]

/-- C10: when the RGBA buffer list and the frame list have different
lengths, stitch_frames returns none. -/
theorem stitch_length_mismatch_none (frames : List CGImage) (rgba : List (List Nat))
    (hlen : rgba.length ≠ frames.length) :
    stitch_frames frames rgba = none := by
  unfold stitch_frames
  rw [if_pos (Or.inr hlen)]

theorem stitch_length_mismatch_none_witness :
    ([] : List (List Nat)).length ≠ [f1Cex].length ∧ stitch_frames [f1Cex] [] = none :=
  ⟨by decide, stitch_length_mismatch_none [f1Cex] [] (by decide)⟩

/-- C7: on a Capture-phase tick where the capture service returns nothing
or the RGBA conversion fails, tick switches the phase to Scroll, returns
true, posts no scroll, and leaves every other field (frames, frame_rgba,
step_count, ...) unchanged. -/
theorem tick_capture_failure_retries (s : ScrollCaptureState) (f : CGImage)
    (hphase : s.phase = Phase.Capture) :
    s.tick CaptureOutcome.captureFailed = ({ s with phase := Phase.Scroll }, true, none) ∧
    s.tick (CaptureOutcome.convertFailed f) = ({ s with phase := Phase.Scroll }, true, none) := by
  unfold ScrollCaptureState.tick
  rw [hphase]
  exact ⟨rfl, rfl⟩

theorem tick_capture_failure_retries_witness :
    sCex.phase = Phase.Capture ∧
    sCex.tick CaptureOutcome.captureFailed = ({ sCex with phase := Phase.Scroll }, true, none) :=
  ⟨rfl, (tick_capture_failure_retries sCex prevCex rfl).1⟩

/-- C8: on a Scroll-phase tick the step count is incremented first; past
the cap the tick stops without posting a scroll, otherwise it posts one
scroll at the translated selection center with delta minus two thirds of
the selection height, switches to Capture and returns true. -/
theorem tick_scroll_step (s : ScrollCaptureState) (outcome : CaptureOutcome)
    (hphase : s.phase = Phase.Scroll) :
    (s.step_count + 1 > s.max_steps →
      s.tick outcome = ({ s with step_count := s.step_count + 1 }, false, none)) ∧
    (s.step_count + 1 ≤ s.max_steps →
      s.tick outcome =
        ({ s with step_count := s.step_count + 1, phase := Phase.Capture }, true,
          some (ScrollCmd.mk
            (overlay_to_cg_global (s.selection.origin.x + s.selection.size.width / 2)
              (s.selection.origin.y + s.selection.size.height / 2) s.screen_origin)
            (-(f64_trunc_to_int (s.selection.size.height * 2 / 3)))))) := by
  unfold ScrollCaptureState.tick
  rw [hphase]
  constructor
  · intro hgt
    rw [if_pos hgt]
  · intro hle
    rw [if_neg (by omega)]

theorem tick_scroll_step_witness :
    sScrollCex.phase = Phase.Scroll ∧ sScrollCex.step_count + 1 ≤ sScrollCex.max_steps ∧
    sScrollCex.tick CaptureOutcome.captureFailed =
      ({ sScrollCex with step_count := sScrollCex.step_count + 1, phase := Phase.Capture }, true,
        some (ScrollCmd.mk
          (overlay_to_cg_global
            (sScrollCex.selection.origin.x + sScrollCex.selection.size.width / 2)
            (sScrollCex.selection.origin.y + sScrollCex.selection.size.height / 2)
            sScrollCex.screen_origin)
          (-(f64_trunc_to_int (sScrollCex.selection.size.height * 2 / 3))))) :=
  ⟨rfl, by decide, (tick_scroll_step sScrollCex CaptureOutcome.captureFailed rfl).2 (by decide)⟩

/-- C1: on a Capture-phase tick with a stored previous frame, the three
overlap ranges checked in order decide the outcome: at least 95 percent
overlap stops without storing; more than 80 percent (and below the first
threshold) stores and stops; anything else stores, switches to Scroll and
continues. -/
theorem tick_capture_overlap_cases (s : ScrollCaptureState) (frame prev : CGImage)
    (hphase : s.phase = Phase.Capture) (hlast : s.frames.getLast? = some prev) :
    (estimate_overlap prev frame prev.height ≥ prev.height * 19 / 20 →
      s.tick (CaptureOutcome.captured frame) = (s, false, none)) ∧
    (estimate_overlap prev frame prev.height > prev.height * 4 / 5 →
      estimate_overlap prev frame prev.height < prev.height * 19 / 20 →
      s.tick (CaptureOutcome.captured frame) =
        ({ s with frames := s.frames ++ [frame],
                  frame_rgba := s.frame_rgba ++ [cgimage_to_rgba frame] }, false, none)) ∧
    (estimate_overlap prev frame prev.height ≤ prev.height * 4 / 5 →
      estimate_overlap prev frame prev.height < prev.height * 19 / 20 →
      s.tick (CaptureOutcome.captured frame) =
        ({ s with frames := s.frames ++ [frame],
                  frame_rgba := s.frame_rgba ++ [cgimage_to_rgba frame],
                  phase := Phase.Scroll }, true, none)) := by
  unfold ScrollCaptureState.tick
  rw [hphase]
  simp only [hlast]
  refine ⟨fun h1 => ?_, fun h2 h3 => ?_, fun h4 h5 => ?_⟩
  · rw [if_pos h1]
  · rw [if_neg (by omega), if_pos h2]
  · rw [if_neg (by omega), if_neg (by omega)]

theorem tick_capture_overlap_cases_witness :
    sCex.phase = Phase.Capture ∧ sCex.frames.getLast? = some prevCex ∧
    sCex.tick (CaptureOutcome.captured currCex) = (sCex, false, none) :=
  ⟨rfl, rfl, (tick_capture_overlap_cases sCex currCex prevCex rfl rfl).1 (by decide)⟩

/-- C5 counterexample: on a concrete Capture-phase tick the controller
stops without storing (its estimate_overlap value is 20 of height 15),
while the two-tier detector find_overlap applied to the stored RGBA
buffers returns 0, which under the documented stop rules would mean
append-and-continue: the overlap value used by tick is not the
find_overlap value. -/
theorem tick_stop_decision_not_find_overlap_cex :
    find_overlap (cgimage_to_rgba prevCex) (cgimage_to_rgba currCex) prevCex.width prevCex.height
        = 0 ∧
    estimate_overlap prevCex currCex prevCex.height = 20 ∧
    sCex.frames.getLast? = some prevCex ∧
    sCex.tick (CaptureOutcome.captured currCex) = (sCex, false, none) := by
  refine ⟨by decide, by decide, rfl, ?_⟩
  rfl

/-- C5 amended: the stop decision of a Capture-phase tick with a stored
previous frame is governed by the value of estimate_overlap applied to the
previous frame image and the new frame image: the tick terminates exactly
when that value reaches one of the two documented thresholds, and the new
frame is withheld exactly when it reaches the 95 percent threshold. -/
theorem tick_stop_decision_matches_estimate (s : ScrollCaptureState) (frame prev : CGImage)
    (hphase : s.phase = Phase.Capture) (hlast : s.frames.getLast? = some prev) :
    ((s.tick (CaptureOutcome.captured frame)).2.1 = false ↔
      estimate_overlap prev frame prev.height ≥ prev.height * 19 / 20 ∨
        estimate_overlap prev frame prev.height > prev.height * 4 / 5) ∧
    ((s.tick (CaptureOutcome.captured frame)).1.frames = s.frames ↔
      estimate_overlap prev frame prev.height ≥ prev.height * 19 / 20) := by
  unfold ScrollCaptureState.tick
  rw [hphase]
  simp only [hlast]
  by_cases h1 : estimate_overlap prev frame prev.height ≥ prev.height * 19 / 20
  · rw [if_pos h1]
    simp [h1]
  · rw [if_neg h1]
    by_cases h2 : estimate_overlap prev frame prev.height > prev.height * 4 / 5
    · rw [if_pos h2]
      refine ⟨by simp [h2], ?_⟩
      simp only []
      constructor
      · intro hEq
        exact absurd hEq (append_singleton_ne _ _)
      · intro hge
        exact absurd hge h1
    · rw [if_neg h2]
      refine ⟨by simp [h1, h2], ?_⟩
      simp only []
      constructor
      · intro hEq
        exact absurd hEq (append_singleton_ne _ _)
      · intro hge
        exact absurd hge h1

theorem tick_stop_decision_matches_estimate_witness :
    sCex.phase = Phase.Capture ∧ sCex.frames.getLast? = some prevCex ∧
    (sCex.tick (CaptureOutcome.captured currCex)).2.1 = false :=
  ⟨rfl, rfl,
    (tick_stop_decision_matches_estimate sCex currCex prevCex rfl rfl).1.mpr (Or.inl (by decide))⟩

/-- C6 counterexample: the estimator used by the tick of the controller
can report an overlap strictly larger than the frame height: on these
concrete 1 x 15 frames it reports 20. -/
theorem estimate_overlap_exceeds_height :
    prevCex.height = 15 ∧ currCex.height = 15 ∧ 15 < estimate_overlap prevCex currCex 15 :=
  ⟨rfl, rfl, by decide⟩

theorem foldl_overlap_le {α : Type} (h : Nat) (stepf : BestCand → α → BestCand)
    (hstep : ∀ st j, (stepf st j).overlap = st.overlap ∨ (stepf st j).overlap ≤ h)
    (l : List α) (st : BestCand) (hst : st.overlap ≤ h) : (l.foldl stepf st).overlap ≤ h := by
  induction l generalizing st with
  | nil => exact hst
  | cons x xs ih =>
    apply ih
    rcases hstep st x with h1 | h1
    · rw [h1]; exact hst
    · exact h1

theorem find_overlap_sad_le (a b : List Nat) (w h : Nat) : find_overlap_sad a b w h ≤ h := by
  simp only [find_overlap_sad]
  split
  · exact Nat.zero_le h
  · split
    · exact Nat.zero_le h
    · split
      · exact Nat.zero_le h
      · split
        · exact Nat.zero_le h
        · split
          · exact Nat.le_refl h
          · omega

theorem bestStep_overlap_le (a b : List Nat) (w h : Nat) (st : BestCand) (j : Nat) :
    (bestStep a b w h st j).overlap = st.overlap ∨ (bestStep a b w h st j).overlap ≤ h := by
  simp only [bestStep]
  split
  · left; rfl
  · split
    · left; rfl
    · rw [if_pos (show 0 < j + h / 6 by omega)]
      split
      · right
        dsimp only
        omega
      · left; rfl

theorem find_overlap_le (a b : List Nat) (w h : Nat) : find_overlap a b w h ≤ h := by
  simp only [find_overlap]
  split
  · exact Nat.zero_le h
  · split
    · exact Nat.zero_le h
    · split
      · exact find_overlap_sad_le a b w h
      · split
        · exact Nat.le_refl h
        · exact foldl_overlap_le h _ (bestStep_overlap_le a b w h) _ _ (Nat.zero_le h)

theorem estimate_overlap_le (prev curr : CGImage) (fh : Nat) :
    estimate_overlap prev curr fh ≤ fh + 5 := by
  simp only [estimate_overlap]
  split
  · omega
  · split
    · rename_i c heq
      have hmem := List.mem_of_find?_eq_some heq
      simp only [List.mem_range] at hmem
      omega
    · omega

/-- C6 amended: the stitch-time detector find_overlap and its fallback
find_overlap_sad always report an overlap between 0 and the frame height,
but the estimator used by the controller tick is only bounded by the frame
height plus five rows and can exceed the height (see the counterexample
theorem). Lower bounds of 0 are inherent in the Nat-valued model. -/
theorem overlap_detector_range (a b : List Nat) (w h : Nat) (prev curr : CGImage) (fh : Nat) :
    find_overlap a b w h ≤ h ∧ find_overlap_sad a b w h ≤ h ∧
    estimate_overlap prev curr fh ≤ fh + 5 :=
  ⟨find_overlap_le a b w h, find_overlap_sad_le a b w h, estimate_overlap_le prev curr fh⟩

theorem total_height_of_eq (h : Nat) (ovs : List Nat) :
    total_height_of h ovs = h + (ovs.map (fun ov => h - ov)).sum := by
  unfold total_height_of
  suffices hgen : ∀ acc, ovs.foldl
      (fun acc ov => let addition := h - ov; if addition = 0 then acc else acc + addition) acc =
      acc + (ovs.map (fun ov => h - ov)).sum by
    exact hgen h
  induction ovs with
  | nil => intro acc; simp
  | cons o os ih =>
    intro acc
    simp only [List.foldl_cons, List.map_cons, List.sum_cons]
    rw [ih]
    split
    · omega
    · omega

theorem total_height_int (h : Nat) (ovs : List Nat) :
    (total_height_of h ovs : Int) =
      (h : Int) + (ovs.map (fun ov => max 0 ((h : Int) - (ov : Nat)))).sum := by
  rw [total_height_of_eq]
  have hsum : ∀ (l : List Nat),
      (((l.map (fun ov => h - ov)).sum : Nat) : Int) =
        (l.map (fun ov => max 0 ((h : Int) - (ov : Nat)))).sum := by
    intro l
    induction l with
    | nil => simp
    | cons x xs ih =>
      simp only [List.map_cons, List.sum_cons, Nat.cast_add]
      rw [ih]
      have hx : (((h - x) : Nat) : Int) = max 0 ((h : Int) - (x : Nat)) := by omega
      rw [hx]
  rw [← hsum]
  push_cast
  ring

/-- C2: for at least two frames of common positive dimensions, stitching
succeeds and the output has the common width and height equal to the frame
height plus the sum of max(0, height - overlap) over the detector-computed
pairwise overlaps. -/
theorem stitch_frames_dims (frames : List CGImage) (rgba : List (List Nat)) (w h : Nat)
    (hn : 2 ≤ frames.length) (hlen : rgba.length = frames.length)
    (hdims : ∀ f ∈ frames, f.width = w ∧ f.height = h) (hw : 0 < w) (hh : 0 < h) :
    ∃ out, stitch_frames frames rgba = some out ∧ out.width = w ∧
      (out.height : Int) =
        (h : Int) + ((stitch_overlaps rgba w h).map (fun ov => max 0 ((h : Int) - (ov : Nat)))).sum := by
  match frames, hn with
  | f0 :: f1 :: rest, _ =>
    have hw0 : f0.width = w := (hdims f0 (by simp)).1
    have hh0 : f0.height = h := (hdims f0 (by simp)).2
    simp only [stitch_frames]
    rw [if_neg (by simp [hlen])]
    rw [hw0, hh0]
    rw [if_neg (by have hteq := total_height_of_eq h (stitch_overlaps rgba w h); omega)]
    exact ⟨_, rfl, rfl, total_height_int h _⟩

theorem writeSlice_append (W rest seg : List Nat) :
    writeSlice (W ++ rest) W.length seg = W ++ seg ++ rest.drop seg.length := by
  unfold writeSlice
  rw [List.take_left, List.drop_append]

theorem stitch_overlaps_le (rgba : List (List Nat)) (w h : Nat) :
    ∀ ov ∈ stitch_overlaps rgba w h, ov ≤ h := by
  induction rgba with
  | nil => simp [stitch_overlaps]
  | cons a tail ih =>
    cases tail with
    | nil => simp [stitch_overlaps]
    | cons b rest =>
      intro ov hov
      simp only [stitch_overlaps, List.mem_cons] at hov
      rcases hov with hov | hov
      · rw [hov]; exact find_overlap_le a b w h
      · exact ih ov hov

theorem stitch_loop_spec (h bpr : Nat) (pairs : List (Nat × List Nat)) :
    ∀ (W rest : List Nat) (cur : Nat),
      W.length = cur * bpr →
      rest.length = (pairs.map (fun p => h - p.1)).sum * bpr →
      (∀ p ∈ pairs, p.1 ≤ h ∧ p.2.length = h * bpr) →
      pairs.foldl
        (fun st p =>
          if h - p.1 = 0 then st
          else
            (writeSlice st.1 (st.2 * bpr) ((p.2.drop (p.1 * bpr)).take ((h - p.1) * bpr)),
              st.2 + (h - p.1)))
        (W ++ rest, cur) =
      (W ++ (pairs.map (fun p => p.2.drop (p.1 * bpr))).flatten,
        cur + (pairs.map (fun p => h - p.1)).sum) := by
  induction pairs with
  | nil =>
    intro W rest cur hW hrest hwf
    have hre : rest = [] := List.eq_nil_of_length_eq_zero (by simpa using hrest)
    simp [hre]
  | cons p ps ih =>
    intro W rest cur hW hrest hwf
    obtain ⟨o, src⟩ := p
    have ho := hwf (o, src) (by simp)
    simp only [List.foldl_cons]
    by_cases hadd : h - o = 0
    · rw [if_pos hadd]
      have hdropnil : src.drop (o * bpr) = [] :=
        List.drop_eq_nil_of_le (by rw [ho.2]; exact Nat.mul_le_mul_right bpr (by omega))
      have := ih W rest cur hW (by simpa [hadd] using hrest) (fun q hq => hwf q (by simp [hq]))
      rw [this]
      simp [hdropnil, hadd]
    · rw [if_neg hadd]
      have hlendrop : (src.drop (o * bpr)).length = (h - o) * bpr := by
        rw [List.length_drop, ho.2, Nat.sub_mul]
      have hseg : (src.drop (o * bpr)).take ((h - o) * bpr) = src.drop (o * bpr) :=
        List.take_of_length_le (by rw [hlendrop])
      have hsum : rest.length = (h - o) * bpr + ((ps.map (fun p => h - p.1)).sum) * bpr := by
        rw [hrest]; simp [Nat.add_mul]
      rw [hseg, ← hW,
        writeSlice_append W rest (src.drop (o * bpr)), hlendrop]
      have hW2 : (W ++ src.drop (o * bpr)).length = (cur + (h - o)) * bpr := by
        simp [hW, hlendrop, Nat.add_mul]
      have hrest2 : (rest.drop ((h - o) * bpr)).length = ((ps.map (fun p => h - p.1)).sum) * bpr := by
        rw [List.length_drop]; omega
      rw [ih (W ++ src.drop (o * bpr)) (rest.drop ((h - o) * bpr)) (cur + (h - o)) hW2 hrest2
        (fun q hq => hwf q (by simp [hq]))]
      simp only [List.map_cons, List.flatten_cons, List.sum_cons, List.append_assoc,
        Prod.mk.injEq]
      refine ⟨trivial, by omega⟩

theorem stitch_overlaps_length (rgba : List (List Nat)) (w h : Nat) :
    (stitch_overlaps rgba w h).length = rgba.length - 1 := by
  induction rgba with
  | nil => simp [stitch_overlaps]
  | cons a tail ih =>
    cases tail with
    | nil => simp [stitch_overlaps]
    | cons b rest =>
      simp only [stitch_overlaps, List.length_cons] at ih ⊢
      omega

/-- C3: for at least two frames of common positive dimensions and
well-formed buffer lengths, the stitched byte buffer is exactly the first
buffer followed, for each later frame, by its rows from the detected
overlap down to the bottom, in order. -/
theorem stitch_frames_bytes (frames : List CGImage) (rgba : List (List Nat)) (w h : Nat)
    (hn : 2 ≤ frames.length) (hlen : rgba.length = frames.length)
    (hdims : ∀ f ∈ frames, f.width = w ∧ f.height = h) (hw : 0 < w) (hh : 0 < h)
    (hwf : ∀ d ∈ rgba, d.length = w * h * 4) :
    ∃ out, stitch_frames frames rgba = some out ∧
      out.data = rgba.headD [] ++
        (((stitch_overlaps rgba w h).zip rgba.tail).map
          (fun p => p.2.drop (p.1 * (w * 4)))).flatten := by
  cases frames with
  | nil => simp at hn
  | cons f0 frames1 =>
    cases frames1 with
    | nil => simp at hn
    | cons f1 frames2 =>
      cases rgba with
      | nil => simp at hlen
      | cons r0 rt =>
        have hw0 : f0.width = w := (hdims f0 (by simp)).1
        have hh0 : f0.height = h := (hdims f0 (by simp)).2
        have hr0 : r0.length = w * h * 4 := hwf r0 (by simp)
        simp only [stitch_frames]
        rw [if_neg (by simp [hlen])]
        rw [hw0, hh0]
        set ovs := stitch_overlaps (r0 :: rt) w h with hovs
        have htot := total_height_of_eq h ovs
        rw [if_neg (by omega)]
        refine ⟨_, rfl, ?_⟩
        have htake : r0.take (w * 4 * h) = r0 :=
          List.take_of_length_le (Nat.le_of_eq (by rw [hr0]; ring))
        have hcount : w * 4 * total_height_of h ovs - (0 + r0.length) =
            (ovs.map (fun ov => h - ov)).sum * (w * 4) := by
          rw [htot, hr0]
          have e1 : w * 4 * (h + (ovs.map (fun ov => h - ov)).sum) =
              w * h * 4 + (ovs.map (fun ov => h - ov)).sum * (w * 4) := by ring
          omega
        have houtput1 : writeSlice (List.replicate (w * 4 * total_height_of h ovs) 0) 0
            (((r0 :: rt).headD []).take (w * 4 * h)) =
            r0 ++ List.replicate ((ovs.map (fun ov => h - ov)).sum * (w * 4)) 0 := by
          show writeSlice (List.replicate (w * 4 * total_height_of h ovs) 0) 0
            (r0.take (w * 4 * h)) = _
          rw [htake]
          unfold writeSlice
          rw [List.take_zero, List.drop_replicate, hcount]
          rfl
        rw [houtput1]
        have hovlen : ovs.length ≤ rt.length := by
          rw [hovs, stitch_overlaps_length]
          simp
        have hfst : (ovs.zip rt).map Prod.fst = ovs := List.map_fst_zip ovs rt hovlen
        have hmapsum : ((ovs.zip rt).map (fun p => h - p.1)).sum =
            (ovs.map (fun ov => h - ov)).sum := by
          have : (ovs.zip rt).map (fun p => h - p.1) =
              ((ovs.zip rt).map Prod.fst).map (fun ov => h - ov) := by
            rw [List.map_map]
            rfl
          rw [this, hfst]
        have hwfpairs : ∀ p ∈ ovs.zip rt, p.1 ≤ h ∧ p.2.length = h * (w * 4) := by
          intro p hp
          obtain ⟨o, d⟩ := p
          have hmem := List.of_mem_zip hp
          refine ⟨stitch_overlaps_le (r0 :: rt) w h o hmem.1, ?_⟩
          rw [hwf d (List.mem_cons_of_mem r0 hmem.2)]
          ring
        simp only [List.tail_cons, List.headD_cons]
        rw [stitch_loop_spec h (w * 4) (ovs.zip rt) r0
          (List.replicate ((ovs.map (fun ov => h - ov)).sum * (w * 4)) 0) h
          (by rw [hr0]; ring) (by rw [List.length_replicate, hmapsum]) hwfpairs]

theorem stitch_frames_dims_witness :
    2 ≤ ([f1Cex, f2Cex] : List CGImage).length ∧
    (∃ out, stitch_frames [f1Cex, f2Cex] [[9, 9, 9, 255], [7, 7, 7, 255]] = some out ∧
      out.width = 1 ∧
      (out.height : Int) = (1 : Int) +
        ((stitch_overlaps [[9, 9, 9, 255], [7, 7, 7, 255]] 1 1).map
          (fun ov => max 0 ((1 : Int) - (ov : Nat)))).sum) :=
  ⟨by decide,
    stitch_frames_dims [f1Cex, f2Cex] [[9, 9, 9, 255], [7, 7, 7, 255]] 1 1 (by decide) (by decide)
      (by decide) (by decide) (by decide)⟩

theorem stitch_frames_bytes_witness :
    (∀ d ∈ [[9, 9, 9, 255], [7, 7, 7, 255]], List.length d = 1 * 1 * 4) ∧
    (∃ out, stitch_frames [f1Cex, f2Cex] [[9, 9, 9, 255], [7, 7, 7, 255]] = some out ∧
      out.data = [[9, 9, 9, 255], [7, 7, 7, 255]].headD [] ++
        (((stitch_overlaps [[9, 9, 9, 255], [7, 7, 7, 255]] 1 1).zip
            [[9, 9, 9, 255], [7, 7, 7, 255]].tail).map
          (fun p => p.2.drop (p.1 * (1 * 4)))).flatten) :=
  ⟨by decide,
    stitch_frames_bytes [f1Cex, f2Cex] [[9, 9, 9, 255], [7, 7, 7, 255]] 1 1 (by decide) (by decide)
      (by decide) (by decide) (by decide) (by decide)⟩

theorem getD_range_map (f : Nat → Nat) (n i d : Nat) (hi : i < n) :
    ((List.range n).map f).getD i d = f i := by
  rw [List.getD_eq_getElem?_getD, List.getElem?_map, List.getElem?_range hi]
  rfl

theorem scan_matches_count (p : Nat → Bool) (l : List Nat) :
    ∀ st : Nat × Nat × Nat,
      (l.foldl (fun st r =>
        if p r then (max st.1 (st.2.1 + 1), st.2.1 + 1, st.2.2 + 1) else (st.1, 0, st.2.2)) st).2.2 =
      st.2.2 + (l.filter p).length := by
  induction l with
  | nil => intro st; simp
  | cons x xs ih =>
    intro st
    by_cases hx : p x
    · simp only [List.foldl_cons, List.filter_cons, hx, if_pos, ih, List.length_cons]
      omega
    · simp only [List.foldl_cons, List.filter_cons, hx, if_neg, Bool.false_eq_true,
        ite_false, ih]

theorem runScan3_matches (p : Nat → Bool) (k : Nat) :
    (runScan3 p k).2.2 = ((List.range k).filter p).length := by
  rw [runScan3, scan_matches_count]
  simp

theorem scan_fst_mono (p : Nat → Bool) (l : List Nat) :
    ∀ st : Nat × Nat × Nat, st.1 ≤
      (l.foldl (fun st r =>
        if p r then (max st.1 (st.2.1 + 1), st.2.1 + 1, st.2.2 + 1) else (st.1, 0, st.2.2)) st).1 := by
  induction l with
  | nil => intro st; exact Nat.le_refl _
  | cons x xs ih =>
    intro st
    by_cases hx : p x
    · simp only [List.foldl_cons, hx, if_pos]
      have h2 := ih (max st.1 (st.2.1 + 1), st.2.1 + 1, st.2.2 + 1)
      exact Nat.le_trans (Nat.le_max_left _ _) h2
    · simp only [List.foldl_cons, hx, Bool.false_eq_true, ite_false]
      exact ih (st.1, 0, st.2.2)

theorem scan_fst_pos (p : Nat → Bool) (l : List Nat) (r : Nat) (hr : r ∈ l) (hp : p r = true) :
    ∀ st : Nat × Nat × Nat, 1 ≤
      (l.foldl (fun st r =>
        if p r then (max st.1 (st.2.1 + 1), st.2.1 + 1, st.2.2 + 1) else (st.1, 0, st.2.2)) st).1 := by
  induction l with
  | nil => cases hr
  | cons x xs ih =>
    intro st
    rcases List.mem_cons.mp hr with hrx | hrxs
    · subst hrx
      simp only [List.foldl_cons, hp, if_pos]
      refine Nat.le_trans ?_ (scan_fst_mono p xs (max st.1 (st.2.1 + 1), st.2.1 + 1, st.2.2 + 1))
      dsimp only
      omega
    · by_cases hx : p x
      · simp only [List.foldl_cons, hx, if_pos]
        exact ih hrxs (max st.1 (st.2.1 + 1), st.2.1 + 1, st.2.2 + 1)
      · simp only [List.foldl_cons, hx, Bool.false_eq_true, ite_false]
        exact ih hrxs (st.1, 0, st.2.2)

theorem verifyBand_eq (a b : List Nat) (w h k : Nat) (hk : k ≤ h) :
    verifyBand a b w h k = runScan3 (t1MatchRow a b w h k) k := by
  rw [verifyBand, runScan3]
  apply List.foldl_ext
  intro st r hr
  have hrk : r < k := List.mem_range.mp hr
  have hha : (if h - h * 19 / 20 ≤ h - k + r then
        (hashesA a w h).getD (h - k + r - (h - h * 19 / 20)) 0
      else hash_row a (h - k + r) (w * 4) 0 ((w - w / 20) * 4)) = rowHash a w (h - k + r) := by
    split
    · rw [hashesA, getD_range_map _ _ _ _ (by omega)]
      rw [rowHash]
      congr 1
      omega
    · rw [rowHash]
  have hhb : (if r < h * 19 / 20 then (hashesB b w h).getD r 0
      else hash_row b r (w * 4) 0 ((w - w / 20) * 4)) = rowHash b w r := by
    split
    · rw [hashesB, getD_range_map _ _ _ _ (by omega)]
      rw [rowHash]
    · rw [rowHash]
  simp only [hha, hhb, t1MatchRow, beq_iff_eq]

theorem foldl_skip {α β : Type} (p : α → Bool) (g : β → α → β) (l : List α) (init : β) :
    (l.filter p).foldl g init = l.foldl (fun st x => if p x then g st x else st) init := by
  induction l generalizing init with
  | nil => rfl
  | cons x xs ih =>
    by_cases hx : p x
    · simp [List.filter_cons, hx, ih]
    · simp [List.filter_cons, hx, ih]

theorem bestStep_eq_upd (a b : List Nat) (w h : Nat) (hh : 32 ≤ h) (st : BestCand) (j : Nat)
    (hj : j < h * 19 / 20) :
    bestStep a b w h st j =
      (if rowHash b w j == refRowHash a w h && decide (0 < j + h / 6) && decide (j + h / 6 ≤ h)
       then updBest a b w h st (j + h / 6) else st) := by
  have hB : (hashesB b w h).getD j 0 = rowHash b w j := by
    rw [hashesB, getD_range_map _ _ _ _ hj, rowHash]
  have hRef : (hashesA a w h).getD (h - h / 6 - (h - h * 19 / 20)) 0 = refRowHash a w h := by
    rw [hashesA, getD_range_map _ _ _ _ (by omega), refRowHash, rowHash]
    congr 1
    omega
  rw [bestStep, hB, hRef]
  by_cases hmatch : rowHash b w j = refRowHash a w h
  · rw [if_neg (by simpa using hmatch)]
    by_cases hk : j + h / 6 = 0 ∨ j + h / 6 > h
    · rw [if_pos hk, if_neg (by simp [hmatch]; omega)]
    · rw [if_neg hk]
      have hpred : (rowHash b w j == refRowHash a w h && decide (0 < j + h / 6) &&
          decide (j + h / 6 ≤ h)) = true := by
        simp only [Bool.and_eq_true, beq_iff_eq, decide_eq_true_eq]
        refine ⟨⟨hmatch, ?_⟩, ?_⟩ <;> omega
      rw [if_pos hpred]
      rw [verifyBand_eq a b w h (j + h / 6) (by omega), updBest, t1Best]
      dsimp only
      rw [show (runScan3 (t1MatchRow a b w h (j + h / 6)) (j + h / 6)).2.2 =
          t1Matches a b w h (j + h / 6) by rw [runScan3_matches, t1Matches], ← t1Run]
  · rw [if_pos (by simpa using hmatch), if_neg (by simp [hmatch])]

theorem find_overlap_fold_eq (a b : List Nat) (w h : Nat) (hh : 32 ≤ h) (init : BestCand) :
    (List.range (h * 19 / 20)).foldl (bestStep a b w h) init =
      (t1Candidates a b w h).foldl (updBest a b w h) init := by
  rw [t1Candidates, List.foldl_map, foldl_skip]
  apply List.foldl_ext
  intro st j hjmem
  rw [bestStep_eq_upd a b w h hh st j (List.mem_range.mp hjmem)]

theorem scoreLe_refl (x : Nat × Nat) : scoreLe x x := by
  unfold scoreLe
  omega

theorem scoreLe_trans {x y z : Nat × Nat} (h1 : scoreLe x y) (h2 : scoreLe y z) : scoreLe x z := by
  unfold scoreLe at *
  omega

theorem updBest_cases (a b : List Nat) (w h : Nat) (st : BestCand) (k : Nat) :
    (updBest a b w h st k = t1Best a b w h k ∧
      scoreLe (st.rate, st.run) ((t1Best a b w h k).rate, (t1Best a b w h k).run)) ∨
    (updBest a b w h st k = st ∧
      scoreLe ((t1Best a b w h k).rate, (t1Best a b w h k).run) (st.rate, st.run)) := by
  by_cases hcond : (if 0 < k then t1Matches a b w h k * 1000 / k else 0) > st.rate ∨
      ((if 0 < k then t1Matches a b w h k * 1000 / k else 0) = st.rate ∧
        t1Run a b w h k > st.run)
  · left
    refine ⟨by rw [updBest, if_pos hcond], ?_⟩
    simp only [t1Best, scoreLe]
    omega
  · right
    refine ⟨by rw [updBest, if_neg hcond], ?_⟩
    simp only [t1Best, scoreLe]
    omega

theorem foldl_updBest_go (a b : List Nat) (w h : Nat) (C : List Nat) :
    ∀ k0 : Nat, ∃ k1, (k1 = k0 ∨ k1 ∈ C) ∧
      C.foldl (updBest a b w h) (t1Best a b w h k0) = t1Best a b w h k1 ∧
      scoreLe ((t1Best a b w h k0).rate, (t1Best a b w h k0).run)
        ((t1Best a b w h k1).rate, (t1Best a b w h k1).run) ∧
      ∀ k ∈ C, scoreLe ((t1Best a b w h k).rate, (t1Best a b w h k).run)
        ((t1Best a b w h k1).rate, (t1Best a b w h k1).run) := by
  induction C with
  | nil =>
    intro k0
    exact ⟨k0, Or.inl rfl, rfl, scoreLe_refl _, by simp⟩
  | cons c C ih =>
    intro k0
    rcases updBest_cases a b w h (t1Best a b w h k0) c with ⟨heq, hle⟩ | ⟨heq, hle⟩
    · obtain ⟨k1, hk1mem, hfold, hle2, hall⟩ := ih c
      refine ⟨k1, ?_, ?_, ?_, ?_⟩
      · rcases hk1mem with rfl | hin
        · exact Or.inr (List.mem_cons_self _ _)
        · exact Or.inr (List.mem_cons_of_mem _ hin)
      · rw [List.foldl_cons, heq, hfold]
      · exact scoreLe_trans hle hle2
      · intro k hk
        rcases List.mem_cons.mp hk with rfl | hkC
        · exact hle2
        · exact hall k hkC
    · obtain ⟨k1, hk1mem, hfold, hle2, hall⟩ := ih k0
      refine ⟨k1, ?_, ?_, ?_, ?_⟩
      · rcases hk1mem with rfl | hin
        · exact Or.inl rfl
        · exact Or.inr (List.mem_cons_of_mem _ hin)
      · rw [List.foldl_cons, heq, hfold]
      · exact hle2
      · intro k hk
        rcases List.mem_cons.mp hk with rfl | hkC
        · exact scoreLe_trans hle hle2
        · exact hall k hkC

theorem foldl_updBest_sentinel (a b : List Nat) (w h : Nat) (C : List Nat)
    (hrun : ∀ k ∈ C, 1 ≤ t1Run a b w h k) (hC : C ≠ []) :
    ∃ k1 ∈ C, C.foldl (updBest a b w h) (BestCand.mk 0 0 0 0) = t1Best a b w h k1 ∧
      ∀ k ∈ C, scoreLe ((t1Best a b w h k).rate, (t1Best a b w h k).run)
        ((t1Best a b w h k1).rate, (t1Best a b w h k1).run) := by
  cases C with
  | nil => cases hC rfl
  | cons c C =>
    have hstep : updBest a b w h (BestCand.mk 0 0 0 0) c = t1Best a b w h c := by
      rw [updBest]
      rw [if_pos ?cond]
      case cond =>
        show (if 0 < c then t1Matches a b w h c * 1000 / c else 0) > 0 ∨
          ((if 0 < c then t1Matches a b w h c * 1000 / c else 0) = 0 ∧ t1Run a b w h c > 0)
        have h1 := hrun c (List.mem_cons_self c C)
        omega
    obtain ⟨k1, hk1mem, hfold, hle2, hall⟩ := foldl_updBest_go a b w h C c
    refine ⟨k1, ?_, ?_, ?_⟩
    · rcases hk1mem with rfl | hin
      · exact List.mem_cons_self _ _
      · exact List.mem_cons_of_mem _ hin
    · rw [List.foldl_cons, hstep, hfold]
    · intro k hk
      rcases List.mem_cons.mp hk with rfl | hkC
      · exact hle2
      · exact hall k hkC

theorem mem_t1Candidates (a b : List Nat) (w h k : Nat) (hh : 32 ≤ h)
    (hmem : k ∈ t1Candidates a b w h) :
    0 < k ∧ k ≤ h ∧ 1 ≤ t1Run a b w h k := by
  simp only [t1Candidates, List.mem_map, List.mem_filter, List.mem_range] at hmem
  obtain ⟨j, ⟨hj, hcond⟩, rfl⟩ := hmem
  simp only [Bool.and_eq_true, beq_iff_eq, decide_eq_true_eq] at hcond
  obtain ⟨⟨hhash, h0⟩, hle⟩ := hcond
  refine ⟨h0, hle, ?_⟩
  have hjk : j < j + h / 6 := by omega
  have hmr : t1MatchRow a b w h (j + h / 6) j = true := by
    simp only [t1MatchRow, beq_iff_eq]
    have harg : h - (j + h / 6) + j = h - h / 6 := by omega
    rw [harg, hhash, refRowHash]
  rw [t1Run, runScan3]
  exact scan_fst_pos (t1MatchRow a b w h (j + h / 6)) (List.range (j + h / 6)) j
    (List.mem_range.mpr hjk) hmr (0, 0, 0)

/-- C4: under the entry guards of find_overlap, tier 1 behaves as
specified: the candidate set consists of the in-range overlaps
k = j + height / 6 for rows j of the later frame whose hash equals the
reference row hash; the selected candidate maximizes match rate with ties
broken by the longest run; it is returned iff its longest run reaches 8 or
its match count reaches max(8, k / 4), and otherwise the tier-2 intensity
fallback decides; with no candidate at all the fallback decides. -/
theorem find_overlap_tier1_characterization (a b : List Nat) (w h : Nat)
    (hna : a ≠ []) (hnb : b ≠ []) (hw : 0 < w) (hh : 32 ≤ h) :
    (t1Candidates a b w h = [] → find_overlap a b w h = find_overlap_sad a b w h) ∧
    (t1Candidates a b w h ≠ [] →
      ∃ best ∈ t1Candidates a b w h,
        (∀ k ∈ t1Candidates a b w h,
          scoreLe (t1Rate a b w h k, t1Run a b w h k)
            (t1Rate a b w h best, t1Run a b w h best)) ∧
        find_overlap a b w h =
          (if 8 ≤ t1Run a b w h best ∨ max 8 (best / 4) ≤ t1Matches a b w h best
           then best else find_overlap_sad a b w h)) := by
  have hguard1 : ¬(a.isEmpty = true ∨ b.isEmpty = true ∨ w = 0 ∨ h < 32) := by
    simp only [List.isEmpty_iff]
    push_neg
    exact ⟨hna, hnb, by omega, by omega⟩
  have hguard2 : ¬((w - w / 20) * 4 ≤ 0) := by
    have : w / 20 < w := Nat.div_lt_self hw (by norm_num)
    omega
  simp only [find_overlap]
  rw [if_neg hguard1, if_neg hguard2, find_overlap_fold_eq a b w h hh]
  constructor
  · intro hempty
    rw [hempty]
    simp only [List.foldl_nil]
    rw [if_pos (by exact ⟨by decide, by decide⟩)]
  · intro hne
    obtain ⟨k1, hk1mem, hfold, hall⟩ := foldl_updBest_sentinel a b w h (t1Candidates a b w h)
      (fun k hk => (mem_t1Candidates a b w h k hh hk).2.2) hne
    refine ⟨k1, hk1mem, ?_, ?_⟩
    · intro k hk
      have h1 := hall k hk
      have hk0 : 0 < k := (mem_t1Candidates a b w h k hh hk).1
      have hk10 : 0 < k1 := (mem_t1Candidates a b w h k1 hh hk1mem).1
      simp only [t1Best, if_pos hk0, if_pos hk10] at h1
      simpa [t1Rate] using h1
    · rw [hfold]
      have hk1h : k1 ≤ h := (mem_t1Candidates a b w h k1 hh hk1mem).2.1
      simp only [t1Best]
      by_cases hacc : 8 ≤ t1Run a b w h k1 ∨ max 8 (k1 / 4) ≤ t1Matches a b w h k1
      · rw [if_neg (by omega), if_pos hacc]
        split
        · omega
        · rfl
      · rw [if_pos (by omega), if_neg hacc]

theorem find_overlap_tier1_characterization_witness :
    aW ≠ [] ∧ bW ≠ [] ∧ (0 : Nat) < 1 ∧ (32 : Nat) ≤ 32 ∧
    ((t1Candidates aW bW 1 32 = [] →
        find_overlap aW bW 1 32 = find_overlap_sad aW bW 1 32) ∧
      (t1Candidates aW bW 1 32 ≠ [] →
        ∃ best ∈ t1Candidates aW bW 1 32,
          (∀ k ∈ t1Candidates aW bW 1 32,
            scoreLe (t1Rate aW bW 1 32 k, t1Run aW bW 1 32 k)
              (t1Rate aW bW 1 32 best, t1Run aW bW 1 32 best)) ∧
          find_overlap aW bW 1 32 =
            (if 8 ≤ t1Run aW bW 1 32 best ∨ max 8 (best / 4) ≤ t1Matches aW bW 1 32 best
             then best else find_overlap_sad aW bW 1 32))) :=
  ⟨by simp [aW], by simp [bW], by decide, by decide,
    find_overlap_tier1_characterization aW bW 1 32 (by simp [aW]) (by simp [bW]) (by decide)
      (by decide)⟩
